import Mathlib

/-!
Shallow embedding of the dice-command core of the qqchannel-bot repository
(`src/server/service/qapi/dice.ts`, which contains an older string-based
`DiceManager` and a newer `SuccessLevel`-based `DiceManager`).

Strings are modelled as Lean `String`/`List Char`; JavaScript string indices
are modelled at character granularity (all characters relevant to the
commands live in the Basic Multilingual Plane, where JS UTF-16 indices and
character indices coincide). JavaScript `number` values that the code only
ever uses as non-negative integers (skill values, rolls, dice counts) are
modelled as `Nat`; `Math.floor(x / k)` on such values is `Nat` division.
-/

/-- Character class of the JavaScript regex `\s` and of `String.prototype.trim`:
ASCII whitespace plus the Unicode space separators (NBSP, ogham space,
en/em-family spaces, line/paragraph separators, narrow no-break space,
medium mathematical space, ideographic space, BOM). -/
def isJsWhitespace (c : Char) : Bool :=
  c.toNat = 9 || c.toNat = 10 || c.toNat = 11 || c.toNat = 12 || c.toNat = 13 ||
  c.toNat = 32 || c.toNat = 0xa0 || c.toNat = 0x1680 ||
  (0x2000 ≤ c.toNat && c.toNat ≤ 0x200a) ||
  c.toNat = 0x2028 || c.toNat = 0x2029 || c.toNat = 0x202f ||
  c.toNat = 0x205f || c.toNat = 0x3000 || c.toNat = 0xfeff

/-- Character class of the Unicode property `\p{Unified_Ideograph}` used by the
split regex `/[\p{Unified_Ideograph}\s]/u`: the CJK Unified Ideograph blocks
and the fourteen unified compatibility code points. -/
def isUnifiedIdeograph (c : Char) : Bool :=
  (0x3400 ≤ c.toNat && c.toNat ≤ 0x4dbf) ||
  (0x4e00 ≤ c.toNat && c.toNat ≤ 0x9fff) ||
  c.toNat = 0xfa0e || c.toNat = 0xfa0f || c.toNat = 0xfa11 ||
  c.toNat = 0xfa13 || c.toNat = 0xfa14 || c.toNat = 0xfa1f ||
  c.toNat = 0xfa21 || c.toNat = 0xfa23 || c.toNat = 0xfa24 ||
  (0xfa27 ≤ c.toNat && c.toNat ≤ 0xfa29) ||
  (0x20000 ≤ c.toNat && c.toNat ≤ 0x2a6df) ||
  (0x2a700 ≤ c.toNat && c.toNat ≤ 0x2b739) ||
  (0x2b740 ≤ c.toNat && c.toNat ≤ 0x2b81d) ||
  (0x2b820 ≤ c.toNat && c.toNat ≤ 0x2cea1) ||
  (0x2ceb0 ≤ c.toNat && c.toNat ≤ 0x2ebe0) ||
  (0x30000 ≤ c.toNat && c.toNat ≤ 0x3134a)

/-- Character class of the split regex `/[\p{Unified_Ideograph}\s]/u` in
`parseFullExp`: a CJK ideograph or a whitespace character. -/
def isSplitChar (c : Char) : Bool :=
  isUnifiedIdeograph c || isJsWhitespace c

/-- JavaScript `String.prototype.trim`: drop whitespace from both ends. -/
def jsTrim (cs : List Char) : List Char :=
  ((cs.dropWhile isJsWhitespace).reverse.dropWhile isJsWhitespace).reverse

/-- JavaScript `parseInt(s, 10)` restricted to the non-empty all-digit strings
produced by the `(\d+)` capture groups of the shorthand regexes. -/
def digitsToNat (cs : List Char) : Nat :=
  cs.foldl (fun acc c => acc * 10 + (c.toNat - 48)) 0

/-- Match of `exp.match(/^r([bp])\s*(\d+)?$/)` in `parseFullExp` (`dice.ts`):
returns the captured type character and the optional captured dice count. -/
def rbrpMatch (cs : List Char) : Option (Char × Option Nat) :=
  match cs with
  | c1 :: c2 :: rest =>
    if c1 = 'r' ∧ (c2 = 'b' ∨ c2 = 'p') then
      let rest2 := rest.dropWhile isJsWhitespace
      if rest2.all Char.isDigit then
        some (c2, if rest2.isEmpty then none else some (digitsToNat rest2))
      else none
    else none
  | _ => none

/-- Suffix of the match of `exp.match(/^w{1,2}\s*(\d+)\s*a?\s*(\d+)*$/)` after
the leading `w`s have been consumed: `\s*(\d+)\s*a?\s*(\d+)*$` with greedy
captures; the second component is the (last) capture of `(\d+)*`, which for a
digit-only tail is the whole tail. -/
def wwRest (rest : List Char) : Option (Nat × Option Nat) :=
  let r1 := rest.dropWhile isJsWhitespace
  let ds := r1.takeWhile Char.isDigit
  if ds.isEmpty then none
  else
    let r2 := (r1.drop ds.length).dropWhile isJsWhitespace
    let r3 := if r2.head? = some 'a' then r2.drop 1 else r2
    let r4 := r3.dropWhile isJsWhitespace
    if r4.all Char.isDigit then
      some (digitsToNat ds, if r4.isEmpty then none else some (digitsToNat r4))
    else none

/-- Match of `exp.match(/^w{1,2}\s*(\d+)\s*a?\s*(\d+)*$/)` in `parseFullExp`:
`w{1,2}` is greedy (two `w`s are consumed when present, backtracking to one
only on failure of the remainder). -/
def wwMatch (cs : List Char) : Option (Nat × Option Nat) :=
  match cs with
  | [] => none
  | [c] => if c = 'w' then wwRest [] else none
  | c1 :: c2 :: rest =>
    if c1 = 'w' then
      if c2 = 'w' then (wwRest rest).orElse (fun _ => wwRest (c2 :: rest))
      else wwRest (c2 :: rest)
    else none

/-- Token part of `parseFullExp`: the characters before the first CJK
ideograph or whitespace character (the `fullExp.slice(0, index)` of
`fullExp.search(/[\p{Unified_Ideograph}\s]/u)`, the whole string when the
search fails). -/
def tokenOf (fullExp : String) : List Char :=
  fullExp.data.takeWhile (fun c => !(isSplitChar c))

/-- Descriptor part of `parseFullExp`: the remainder from the first CJK
ideograph or whitespace character on (`fullExp.slice(index)`), empty when the
search fails. -/
def descOf (fullExp : String) : List Char :=
  fullExp.data.dropWhile (fun c => !(isSplitChar c))

/-- Function `parseFullExp` of `dice.ts`: shorthand-command text to a pair of
canonical dice expression and free-text descriptor. -/
def parseFullExp (fullExp : String) : String × String :=
  if fullExp = "sc" ∨ fullExp = "SC" then ("d%", "sc")
  else
    let exp := String.mk (tokenOf fullExp)
    let desc := String.mk (descOf fullExp)
    if exp = "d" ∨ exp = "r" ∨ exp = "rd" then ("d%", desc)
    else if exp = "ra" then ("d%", desc)
    else
      match rbrpMatch (tokenOf fullExp) with
      | some (t, nopt) =>
        (toString (nopt.getD 1 + 1) ++ "d%k" ++ (if t = 'b' then "l" else "h") ++ "1", desc)
      | none =>
        match wwMatch (tokenOf fullExp) with
        | some (diceCount, topt) =>
          (toString diceCount ++ "d10!>=" ++ toString (topt.getD 10) ++ ">=8", desc)
        | none =>
          if (tokenOf fullExp).head? = some 'r' then
            (String.mk (jsTrim ((tokenOf fullExp).drop 1)), desc)
          else (exp, desc)

/-- Modelled from the spec: the canonical bonus-dice expression the spec
claims for `r b <N>` — roll `N+1` percentile dice and keep the HIGHEST one
(`kh1`). Used only to compare the spec's claim with the code's output. -/
def specBonusKeepHighest (n : Nat) : String :=
  toString (n + 1) ++ "d%kh1"

/-- Function `unescapeHTML` of `dice.ts` at character-list level: a single
left-to-right scan replacing the entities of `/&lt;|&gt;|&amp;/g`. -/
def unescapeChars : List Char → List Char
  | '&' :: 'l' :: 't' :: ';' :: cs => '<' :: unescapeChars cs
  | '&' :: 'g' :: 't' :: ';' :: cs => '>' :: unescapeChars cs
  | '&' :: 'a' :: 'm' :: 'p' :: ';' :: cs => '&' :: unescapeChars cs
  | c :: cs => c :: unescapeChars cs
  | [] => []

/-- JavaScript `s.replace(pat, repl)` with a plain-string pattern: replace the
first occurrence only. -/
def replaceFirst (pat repl : List Char) : List Char → List Char
  | [] => if pat.isEmpty then repl else []
  | c :: cs =>
    if pat.isPrefixOf (c :: cs) then repl ++ (c :: cs).drop pat.length
    else c :: replaceFirst pat repl cs

/-- Boolean model of JavaScript `s.startsWith(pre)`. -/
def strStartsWith (s pre : String) : Bool :=
  pre.data.isPrefixOf s.data

/-- Mention marker checked by the older `handleGuildMessage`:
the string `<@!<botUserId>> ` with a trailing space. -/
def mentionTokenOld (botUserId : String) : String :=
  "<@!" ++ botUserId ++ "> "

/-- Mention marker checked by the newer `handleGuildMessage`:
the string `<@!<botUserId>>` without a trailing space. -/
def mentionTokenNew (botUserId : String) : String :=
  "<@!" ++ botUserId ++ ">"

/-- Command extraction of the older `handleGuildMessage` (`dice.ts`, first
variant): returns the `fullExp` passed to `tryRollDice`, `none` when the
handler returns without invoking the parser/roll path. -/
def handleGuildMessageOldCmd (botUserId : String) (rawContent : String) : Option String :=
  let content := String.mk (jsTrim rawContent.data)
  if content = "" then none
  else
    let fullExp :=
      if strStartsWith content (mentionTokenOld botUserId) then
        String.mk (jsTrim (replaceFirst (mentionTokenOld botUserId).data [] content.data))
      else if strStartsWith content "." ∨ strStartsWith content "。" then
        String.mk (jsTrim (content.data.drop 1))
      else ""
    if fullExp = "" then none
    else some (String.mk (unescapeChars fullExp.data))

/-- Command extraction of the newer `handleGuildMessage` (`dice.ts`, second
variant): mention marker and `.`/`。` marker are each stripped when present,
and `tryRollDice` is invoked with the result unconditionally. -/
def handleGuildMessageNewCmd (botUserId : String) (rawContent : String) : Option String :=
  let content := String.mk (jsTrim rawContent.data)
  if content = "" then none
  else
    let e1 :=
      if strStartsWith content (mentionTokenNew botUserId) then
        String.mk (jsTrim (replaceFirst (mentionTokenNew botUserId).data [] content.data))
      else content
    let e2 :=
      if strStartsWith e1 "." ∨ strStartsWith e1 "。" then
        String.mk (jsTrim (e1.data.drop 1))
      else e1
    some (String.mk (unescapeChars e2.data))

/-- Success levels of `SuccessLevel` (from `../dice/utils`, the values the
newer `decideResult` constructs). -/
inductive SuccessLevel where
  | BEST
  | WORST
  | REGULAR_SUCCESS
  | FAIL
deriving DecidableEq, Repr

/-- Skill entry handed to the newer `decideResult`: `baseValue` is the
unmodified rating, `value` the difficulty-adjusted rating. -/
structure ICocCardEntry where
  baseValue : Nat
  value : Nat
deriving DecidableEq, Repr

/-- Result record of the newer `decideResult`. -/
structure IDeciderResult where
  success : Bool
  level : SuccessLevel
  desc : String
deriving DecidableEq, Repr

/-- Method `decideResult` of the newer `DiceManager` (`dice.ts`, second
variant, the `SuccessLevel`-based decider). -/
def decideResult (cardEntry : ICocCardEntry) (roll : Nat) : IDeciderResult :=
  if roll = 1 then
    { success := true, level := .BEST, desc := "大成功" }
  else if (cardEntry.baseValue < 50 ∧ roll > 95) ∨ (cardEntry.baseValue ≥ 50 ∧ roll = 100) then
    { success := false, level := .WORST, desc := "大失败" }
  else if roll ≤ cardEntry.value then
    { success := true, level := .REGULAR_SUCCESS, desc := "≤ " ++ toString cardEntry.value ++ " 成功" }
  else
    { success := false, level := .FAIL, desc := "> " ++ toString cardEntry.value ++ " 失败" }

/-- Basic block of a character card as used by the older `decideResult`. -/
structure ICardBasic where
  name : String
  san : Nat
  luck : Nat

/-- Character card as used by the older `decideResult`. The JavaScript object
lookups `card.props[skill]` and `card.skills[skill]` are modelled as total
functions where the value 0 stands for an absent (falsy) entry, matching the
code's own comment that a stored skill value of 0 is impossible. -/
structure ICard where
  basic : ICardBasic
  props : String → Nat
  skills : String → Nat

/-- Result record of the older `decideResult`. -/
structure OldResult where
  resultDesc : String
  skill : String
  cardName : String
deriving DecidableEq, Repr

/-- Comparison strings produced by the older `decideResult`:
`≤ <target> 成功` on success and `> <target> 失败` on failure. -/
def compareDesc (target roll : Nat) : String :=
  if roll ≤ target then "≤ " ++ toString target ++ " 成功"
  else "> " ++ toString target ++ " 失败"

/-- Substring test for `skill.indexOf(pat) >= 0`. -/
def containsSub (pat : List Char) : List Char → Bool
  | [] => pat.isEmpty
  | c :: cs => pat.isPrefixOf (c :: cs) || containsSub pat cs

/-- Replacement `skill.replace(/(困难|极难|极限)/g, '')`: one left-to-right
scan removing each non-overlapping occurrence of a difficulty word. -/
def stripDifficulty : List Char → List Char
  | [] => []
  | [c] => [c]
  | c1 :: c2 :: cs =>
    if (c1 = '困' ∧ c2 = '难') ∨ (c1 = '极' ∧ (c2 = '难' ∨ c2 = '限')) then
      stripDifficulty cs
    else c1 :: stripDifficulty (c2 :: cs)

/-- Method `decideResult` of the older `DiceManager` (`dice.ts`, first
variant). The card lookup `this.wss.cards.getCard(channel, sender)` is
modelled as the `Option ICard` argument. -/
def decideResultOld (cardLookup : Option ICard) (desc : String) (roll : Nat) : Option OldResult :=
  let skill0 := String.mk (jsTrim desc.data)
  if skill0 = "" then none
  else
    match cardLookup with
    | none => none
    | some card =>
      if skill0 = "理智" ∨ skill0 = "sc" ∨ skill0 = "SC" then
        some ⟨compareDesc card.basic.san roll, skill0, card.basic.name⟩
      else if skill0 = "幸运" then
        some ⟨compareDesc card.basic.luck roll, skill0, card.basic.name⟩
      else if skill0 = "灵感" then
        some ⟨compareDesc (card.props "智力") roll, skill0, card.basic.name⟩
      else
        let isHard := containsSub "困难".data skill0.data
        let isEx := containsSub "极难".data skill0.data || containsSub "极限".data skill0.data
        let skill1 := String.mk (stripDifficulty skill0.data)
        let skill2 := if skill1 = "侦查" then "侦察" else skill1
        let target0 := if card.props skill2 ≠ 0 then card.props skill2 else card.skills skill2
        if target0 = 0 then none
        else if roll = 1 then some ⟨"大成功", skill2, card.basic.name⟩
        else if roll > 95 then some ⟨"大失败", skill2, card.basic.name⟩
        else
          let target := if isEx then target0 / 5 else if isHard then target0 / 2 else target0
          some ⟨compareDesc target roll, skill2, card.basic.name⟩

/-- Sample card used for concrete evaluations: 侦察 60, san 60, luck 60. -/
def sampleCard : ICard :=
  { basic := { name := "测试", san := 60, luck := 60 }
  , props := fun _ => 0
  , skills := fun s => if s = "侦察" then 60 else 0 }

/-- Alternatives of `instRegex` in `dice.ts`, in the order they appear in the
regex source. -/
def instKeywords : List String :=
  ["力量", "体质", "体型", "敏捷", "外貌", "智力", "灵感", "意志", "教育", "理智",
   "幸运", "会计", "人类学", "估价", "考古学", "魅惑", "攀爬", "计算机", "信用",
   "克苏鲁神话", "乔装", "闪避", "驾驶", "电气维修", "电子学", "话术", "格斗",
   "射击", "急救", "历史", "恐吓", "跳跃", "母语", "法律", "图书馆", "聆听",
   "锁匠", "机械维修", "医学", "博物学", "领航", "神秘学", "重型机械", "说服",
   "精神分析", "心理学", "骑术", "妙手", "侦查", "侦察", "潜行", "游泳", "投掷",
   "追踪", "sc", "SC"]

/-- Alternatives of the difficulty regex `/(困难|极难|极限)/` in
`detectInstruction`. -/
def difficultyWords : List String :=
  ["困难", "极难", "极限"]

/-- First match of an alternation regex over a text: scan positions left to
right, and at the first position where some alternative matches return the
first matching alternative in pattern order (the JavaScript leftmost-match,
first-alternative rule). -/
def firstAltMatch (pats : List String) : List Char → Option String
  | [] => pats.find? (fun p => p.data.isEmpty)
  | c :: cs =>
    match pats.find? (fun p => p.data.isPrefixOf (c :: cs)) with
    | some p => some p
    | none => firstAltMatch pats cs

/-- Function `detectInstruction` of `dice.ts`: the first `instRegex` keyword
occurrence prefixed with the first difficulty word found anywhere in the
text. -/
def detectInstruction (text : String) : Option String :=
  match firstAltMatch instKeywords text.data with
  | none => none
  | some skill =>
    let difficulty := (firstAltMatch difficultyWords text.data).getD ""
    some (difficulty ++ skill)

/-- Occurrence characterization for the alternation scan, stated
independently of the scanning function: `p` is the FIRST match of the
alternation `pats` in `l` when `p` is one of the alternatives and matches
(as a prefix) at some position `i`, NO alternative matches at any strictly
earlier position, and no alternative listed before `p` in pattern order
matches at position `i` itself. -/
def isFirstAltOccurrence (pats : List String) (l : List Char) (p : String) : Prop :=
  ∃ i pre post,
    pats = pre ++ p :: post ∧
    p.data <+: l.drop i ∧
    (∀ j < i, ∀ q ∈ pats, ¬ q.data <+: l.drop j) ∧
    (∀ q ∈ pre, ¬ q.data <+: l.drop i)

/-- Roll record fields of `StandardDiceRoll` (from `../dice/standard`) that
the handlers of the newer `DiceManager` inspect. -/
structure StandardDiceRoll where
  eligibleForOpposedRoll : Bool
  hidden : Bool
deriving DecidableEq, Repr

/-- Outcome of `tryRollDice` as seen by the handlers: `failed` models the
`null` return on a parse/evaluate exception, `nonStandard` a roller that is
not a `StandardDiceRoll`, and `standard r` a `StandardDiceRoll`. -/
inductive RollOutcome where
  | failed
  | nonStandard
  | standard (r : StandardDiceRoll)
deriving DecidableEq, Repr

/-- Write `this.opposedRollCache.set(replyMsg.id, roll)`: insert or overwrite
the entry for the key. -/
def cacheSet (cache : List (String × StandardDiceRoll)) (k : String) (r : StandardDiceRoll) :
    List (String × StandardDiceRoll) :=
  (k, r) :: cache.filter (fun p => p.1 ≠ k)

/-- Read `this.opposedRollCache.get(k)`. -/
def cacheGet (cache : List (String × StandardDiceRoll)) (k : String) : Option StandardDiceRoll :=
  (cache.find? (fun p => p.1 = k)).map Prod.snd

/-- Effect of one run of the newer `handleGuildMessage` on the opposed-roll
cache: the cache is written only when the roll succeeded as a non-hidden
`StandardDiceRoll`, the channel was found, the result message was posted
successfully (its id is `replyMsg`), and the roll is flagged
`eligibleForOpposedRoll`. -/
def guildMessageCacheStep (cache : List (String × StandardDiceRoll)) (outcome : RollOutcome)
    (channelFound : Bool) (replyMsg : Option String) : List (String × StandardDiceRoll) :=
  match outcome with
  | .failed => cache
  | .nonStandard => cache
  | .standard r =>
    if !channelFound then cache
    else if r.hidden then cache
    else
      match replyMsg with
      | none => cache
      | some mid => if r.eligibleForOpposedRoll then cacheSet cache mid r else cache

/-- Effect of one run of `handleGuildReactions` on the opposed-roll cache:
same write guard as the message handler, without a hidden-roll branch. -/
def reactionCacheStep (cache : List (String × StandardDiceRoll)) (outcome : RollOutcome)
    (channelFound : Bool) (replyMsg : Option String) : List (String × StandardDiceRoll) :=
  match outcome with
  | .failed => cache
  | .nonStandard => cache
  | .standard r =>
    if !channelFound then cache
    else
      match replyMsg with
      | none => cache
      | some mid => if r.eligibleForOpposedRoll then cacheSet cache mid r else cache

/-- Opposed-roll lookup performed by `tryRollDice`:
`replyMsgId ? this.opposedRollCache.get(replyMsgId) : null` — the cache is
consulted only when a replied-to message id is present. -/
def opposedRollLookup (cache : List (String × StandardDiceRoll)) (replyMsgId : Option String) :
    Option StandardDiceRoll :=
  match replyMsgId with
  | some rid => cacheGet cache rid
  | none => none

/-- Invariant of the opposed-roll cache: every stored record is flagged
`eligibleForOpposedRoll`. -/
def opposedCacheInv (cache : List (String × StandardDiceRoll)) : Prop :=
  ∀ p ∈ cache, p.2.eligibleForOpposedRoll = true

instance (cache : List (String × StandardDiceRoll)) : Decidable (opposedCacheInv cache) := by
  unfold opposedCacheInv; infer_instance

/-! ## Helper lemmas -/

/-- Lists whose elements all falsify `p` are unchanged by `dropWhile p`. -/
theorem dropWhile_eq_self_of_all {p : Char → Bool} {l : List Char}
    (h : ∀ c ∈ l, p c = false) : l.dropWhile p = l := by
  cases l with
  | nil => rfl
  | cons c cs =>
    rw [List.dropWhile_cons, if_neg]
    simp [h c (by simp)]

/-- Lists containing no JavaScript whitespace are unchanged by `jsTrim`. -/
theorem jsTrim_eq_self {l : List Char} (h : ∀ c ∈ l, isJsWhitespace c = false) :
    jsTrim l = l := by
  unfold jsTrim
  rw [dropWhile_eq_self_of_all h,
    dropWhile_eq_self_of_all (fun c hcm => h c (List.mem_reverse.mp hcm)),
    List.reverse_reverse]

/-- Every character of the token falsifies `isSplitChar`. -/
theorem tokenOf_no_split {s : String} {c : Char} (hc : c ∈ tokenOf s) :
    isSplitChar c = false := by
  have := List.mem_takeWhile_imp hc
  simpa using this

/-- Appending a non-empty string on the right yields a non-empty string. -/
theorem append_ne_empty_right (a b : String) (hb : b ≠ "") : a ++ b ≠ "" := by
  intro h
  apply hb
  have hd := congrArg String.data h
  rw [String.data_append a b] at hd
  have := List.append_eq_nil.mp hd
  exact String.ext this.2

/-- Shape of a successful bonus/penalty-dice match: the token is
`r` followed by `b` or `p` followed by the rest. -/
theorem rbrpMatch_shape {cs : List Char} {t : Char} {n : Option Nat}
    (h : rbrpMatch cs = some (t, n)) :
    ∃ rest, cs = 'r' :: t :: rest ∧ (t = 'b' ∨ t = 'p') := by
  cases cs with
  | nil => simp [rbrpMatch] at h
  | cons c1 tl =>
    cases tl with
    | nil => simp [rbrpMatch] at h
    | cons c2 rest =>
      simp only [rbrpMatch] at h
      split_ifs at h with hc hd he
      · simp only [Option.some.injEq, Prod.mk.injEq] at h
        exact ⟨rest, by rw [hc.1, h.1], h.1 ▸ hc.2⟩
      · simp only [Option.some.injEq, Prod.mk.injEq] at h
        exact ⟨rest, by rw [hc.1, h.1], h.1 ▸ hc.2⟩

/-- Shape of a successful exploding-pool match: the token starts with `w`. -/
theorem wwMatch_shape {cs : List Char} {pr : Nat × Option Nat}
    (h : wwMatch cs = some pr) : ∃ rest, cs = 'w' :: rest := by
  cases cs with
  | nil => simp [wwMatch] at h
  | cons c1 tl =>
    cases tl with
    | nil =>
      simp only [wwMatch] at h
      split_ifs at h with hc
      exact ⟨[], by rw [hc]⟩
    | cons c2 rest =>
      simp only [wwMatch] at h
      split_ifs at h with hc hd
      · exact ⟨c2 :: rest, by rw [hc]⟩
      · exact ⟨c2 :: rest, by rw [hc]⟩

/-- Tokens that do not start with `r` never match the bonus/penalty rule. -/
theorem rbrpMatch_eq_none_of_head {cs : List Char} {c : Char} (hc : c ≠ 'r')
    (hh : cs.head? = some c) : rbrpMatch cs = none := by
  cases cs with
  | nil => rfl
  | cons c1 tl =>
    cases tl with
    | nil => rfl
    | cons c2 rest =>
      simp only [List.head?_cons, Option.some.injEq] at hh
      simp only [rbrpMatch]
      rw [if_neg]
      intro hcon
      exact hc (hh ▸ hcon.1)

/-! ## C1 -/

/-- C1 counterexample: the claim asserts that BOTH `decideResult`
implementations give a critical failure for `baseValue >= 50` only at
`roll == 100`; but the older string-based `decideResult`, on a card whose
侦察 skill is 60 (so base value 60 ≥ 50, unmodified by difficulty), classifies
roll 96 as 大失败 (critical failure) although 96 ≠ 100. -/
theorem c1_counterexample :
    sampleCard.skills "侦察" = 60 ∧ 50 ≤ sampleCard.skills "侦察" ∧ (96 : Nat) ≠ 100 ∧
    decideResultOld (some sampleCard) "侦察" 96 = some ⟨"大失败", "侦察", "测试"⟩ := by
  decide

/-- C1 (amended): the NEWER `SuccessLevel`-based `decideResult` obeys the
claimed rule — `roll == 1` is BEST; for `baseValue < 50` any `roll > 95` is
WORST while for `baseValue >= 50` only `roll == 100` is WORST; otherwise
`roll <= value` is REGULAR_SUCCESS and `roll > value` is FAIL — and
`decide({baseValue: 60, value: 60}, 96)` is not WORST there; the OLDER
string-based `decideResult` does not obey it (it yields 大失败 at roll 96
even for a skill value of 60). -/
theorem c1_success_decider_amended (e : ICocCardEntry) (roll : Nat)
    (h1 : 1 ≤ roll) (h2 : roll ≤ 100) :
    ((decideResult e roll).level = SuccessLevel.BEST ↔ roll = 1) ∧
    ((decideResult e roll).level = SuccessLevel.WORST ↔
      (e.baseValue < 50 ∧ roll > 95 ∨ e.baseValue ≥ 50 ∧ roll = 100) ∧ roll ≠ 1) ∧
    ((decideResult e roll).level = SuccessLevel.REGULAR_SUCCESS ↔
      roll ≠ 1 ∧ ¬(e.baseValue < 50 ∧ roll > 95 ∨ e.baseValue ≥ 50 ∧ roll = 100) ∧
      roll ≤ e.value) ∧
    ((decideResult e roll).level = SuccessLevel.FAIL ↔
      roll ≠ 1 ∧ ¬(e.baseValue < 50 ∧ roll > 95 ∨ e.baseValue ≥ 50 ∧ roll = 100) ∧
      ¬(roll ≤ e.value)) ∧
    (decideResult ⟨60, 60⟩ 96).level ≠ SuccessLevel.WORST ∧
    (decideResultOld (some sampleCard) "侦察" 96).map OldResult.resultDesc = some "大失败" := by
  refine ⟨?_, ?_, ?_, ?_, by decide, by decide⟩ <;>
    (unfold decideResult; split_ifs with ha hb hc <;> simp_all)

/-- C1 witness: the amended rule applied at `baseValue = 40 < 50`, roll 96,
which the theorem classifies as WORST. -/
theorem c1_success_decider_amended_witness :
    (decideResult ⟨40, 40⟩ 96).level = SuccessLevel.WORST :=
  ((c1_success_decider_amended ⟨40, 40⟩ 96 (by decide) (by decide)).2.1).mpr (by decide)

/-! ## C2 -/

/-- C2 counterexample: the claim (and the spec) say a bonus roll keeps the
HIGHEST die, i.e. `parse("rb2 侦察")` should canonicalize to keep-highest
(`3d%kh1`); the code emits keep-lowest `3d%kl1` for bonus and keep-highest
`2d%kh1` for penalty. -/
theorem c2_counterexample :
    parseFullExp "rb2 侦察" = ("3d%kl1", " 侦察") ∧
    ("3d%kl1" : String) ≠ specBonusKeepHighest 2 ∧
    parseFullExp "rp 侦察" = ("2d%kh1", " 侦察") := by
  decide

/-- C2 (amended): for every token matching `r[bp]<N>?` (N defaulting to 1)
the parser emits an expression rolling N+1 percentile dice keeping the
LOWEST one for bonus (`b` ↦ `kl1`) and the HIGHEST one for penalty
(`p` ↦ `kh1`), with the split remainder as descriptor. -/
theorem c2_bonus_penalty_amended (s : String) (t : Char) (n : Option Nat)
    (h : rbrpMatch (tokenOf s) = some (t, n)) :
    parseFullExp s =
      (toString (n.getD 1 + 1) ++ "d%k" ++ (if t = 'b' then "l" else "h") ++ "1",
       String.mk (descOf s)) := by
  obtain ⟨rest, htok, htp⟩ := rbrpMatch_shape h
  have hsc : ¬(s = "sc" ∨ s = "SC") := by
    rintro (rfl | rfl)
    · have h1 : (tokenOf "sc").head? = some 'r' := by rw [htok]; rfl
      exact absurd h1 (by decide)
    · have h1 : (tokenOf "SC").head? = some 'r' := by rw [htok]; rfl
      exact absurd h1 (by decide)
  have hd2 : String.mk (tokenOf s) ≠ "d" := by
    rw [htok]; intro hh
    have h2 : some 'r' = some 'd' := congrArg (fun q => q.data.get? 0) hh
    exact absurd (Option.some.inj h2) (by decide)
  have hr2 : String.mk (tokenOf s) ≠ "r" := by
    rw [htok]; intro hh
    have h2 : some t = none := congrArg (fun q => q.data.get? 1) hh
    exact Option.noConfusion h2
  have hrd2 : String.mk (tokenOf s) ≠ "rd" := by
    rw [htok]; intro hh
    have h2 : some t = some 'd' := congrArg (fun q => q.data.get? 1) hh
    rcases htp with rfl | rfl <;> exact absurd (Option.some.inj h2) (by decide)
  have hra2 : String.mk (tokenOf s) ≠ "ra" := by
    rw [htok]; intro hh
    have h2 : some t = some 'a' := congrArg (fun q => q.data.get? 1) hh
    rcases htp with rfl | rfl <;> exact absurd (Option.some.inj h2) (by decide)
  simp only [parseFullExp]
  rw [if_neg hsc, if_neg (by simp [hd2, hr2, hrd2]), if_neg hra2, h]

/-- C2 witness: the amended rule applied at `rp3 射击` (three penalty dice,
four percentile dice keeping the highest). -/
theorem c2_bonus_penalty_amended_witness :
    parseFullExp "rp3 射击" = ("4d%kh1", " 射击") := by
  rw [c2_bonus_penalty_amended "rp3 射击" 'p' (some 3) (by decide)]
  decide

/-! ## C3 -/

/-- C3 counterexample: the claim asserts that BOTH guild-message handlers
ignore messages lacking a command prefix; but on the trimmed text `hello`,
which starts with neither a mention token nor `.` nor `。`, the newer
handler still invokes the roll path, passing `hello` to the parser. -/
theorem c3_counterexample :
    strStartsWith "hello" (mentionTokenNew "42") = false ∧
    strStartsWith "hello" (mentionTokenOld "42") = false ∧
    strStartsWith "hello" "." = false ∧
    strStartsWith "hello" "。" = false ∧
    jsTrim "hello".data = "hello".data ∧
    handleGuildMessageOldCmd "42" "hello" = none ∧
    handleGuildMessageNewCmd "42" "hello" = some "hello" := by
  decide

/-- C3 (amended): for a trimmed non-empty guild message starting with
neither mention token nor `.` nor `。`, the OLDER handler never invokes the
parser/roll path, while the NEWER handler always invokes it, passing the
(unescaped) message text itself to the parser. -/
theorem c3_prefix_guard_amended (botUserId rawContent : String)
    (hne : String.mk (jsTrim rawContent.data) ≠ "")
    (hmn : strStartsWith (String.mk (jsTrim rawContent.data)) (mentionTokenNew botUserId) = false)
    (hmo : strStartsWith (String.mk (jsTrim rawContent.data)) (mentionTokenOld botUserId) = false)
    (hdot : strStartsWith (String.mk (jsTrim rawContent.data)) "." = false)
    (hfdot : strStartsWith (String.mk (jsTrim rawContent.data)) "。" = false) :
    handleGuildMessageOldCmd botUserId rawContent = none ∧
    handleGuildMessageNewCmd botUserId rawContent =
      some (String.mk (unescapeChars (jsTrim rawContent.data))) := by
  constructor
  · simp only [handleGuildMessageOldCmd]
    rw [if_neg hne]
    simp [hmo, hdot, hfdot]
  · simp only [handleGuildMessageNewCmd]
    rw [if_neg hne]
    simp [hmn, hdot, hfdot]

/-- C3 witness: the amended statement applied at bot id `007` and raw
content ` hello ` (trimming to `hello`). -/
theorem c3_prefix_guard_amended_witness :
    handleGuildMessageOldCmd "007" " hello " = none ∧
    handleGuildMessageNewCmd "007" " hello " = some "hello" := by
  have h := c3_prefix_guard_amended "007" " hello " (by decide) (by decide) (by decide)
    (by decide) (by decide)
  exact ⟨h.1, h.2.trans (by decide)⟩

/-! ## C4 -/

/-- C4: `parseFullExp` is total by construction (it is a Lean function
returning a pair for every input string), and when none of the shorthand
rules fires — the input is not `sc`/`SC`, the token is none of `d`, `r`,
`rd`, `ra`, it matches neither the bonus/penalty nor the exploding-pool
pattern, and it does not start with `r` — the token before the first
CJK/whitespace split point is returned verbatim as the expression with the
remainder as descriptor. -/
theorem c4_parse_verbatim_fallback (s : String)
    (hsc : s ≠ "sc") (hSC : s ≠ "SC")
    (hd : String.mk (tokenOf s) ≠ "d") (hr : String.mk (tokenOf s) ≠ "r")
    (hrd : String.mk (tokenOf s) ≠ "rd") (hra : String.mk (tokenOf s) ≠ "ra")
    (hbp : rbrpMatch (tokenOf s) = none) (hww : wwMatch (tokenOf s) = none)
    (hhead : (tokenOf s).head? ≠ some 'r') :
    parseFullExp s = (String.mk (tokenOf s), String.mk (descOf s)) := by
  simp only [parseFullExp]
  rw [if_neg (by simp [hsc, hSC]), if_neg (by simp [hd, hr, hrd]), if_neg hra, hbp, hww,
    if_neg hhead]

/-- C4 witness: the fallback applied at `d66 射击`; the token `d66` matches
no shorthand rule and is returned verbatim. -/
theorem c4_parse_verbatim_fallback_witness :
    parseFullExp "d66 射击" = ("d66", " 射击") := by
  rw [c4_parse_verbatim_fallback "d66 射击" (by decide) (by decide) (by decide) (by decide)
    (by decide) (by decide) (by decide) (by decide) (by decide)]
  decide

/-! ## C5 -/

/-- Characters that are not split characters are not whitespace. -/
theorem no_split_no_ws {c : Char} (h : isSplitChar c = false) :
    isJsWhitespace c = false := by
  unfold isSplitChar at h
  cases hw : isJsWhitespace c
  · rfl
  · rw [hw, Bool.or_true] at h
    exact absurd h (by simp)

/-- C5 counterexample: the claim asserts a non-empty expression for every
input string, but `parseFullExp ""` has the empty expression; it also asserts
the descriptor defaults to empty whenever there is no split point, but
`parseFullExp "sc"` has descriptor `sc` without any split point. -/
theorem c5_counterexample :
    (parseFullExp "").1 = "" ∧ "".data.all (fun c => !(isSplitChar c)) = true ∧
    (parseFullExp "sc").2 = "sc" ∧ "sc".data.all (fun c => !(isSplitChar c)) = true := by
  decide

/-- C5 (amended): when the input is non-empty and its first character is not
a CJK/whitespace split character, the parsed expression component is
non-empty; and for inputs other than the literals `sc`/`SC` containing no
split character at all, the descriptor component is the empty string. -/
theorem c5_parsed_invariant_amended (s : String) :
    ((∀ c ∈ s.data.take 1, isSplitChar c = false) → s ≠ "" → (parseFullExp s).1 ≠ "") ∧
    ((∀ c ∈ s.data, isSplitChar c = false) → s ≠ "sc" → s ≠ "SC" →
      (parseFullExp s).2 = "") := by
  constructor
  · intro hhead hne
    by_cases hsc : s = "sc" ∨ s = "SC"
    · rcases hsc with rfl | rfl <;> decide
    obtain ⟨c, cs, hdata⟩ : ∃ c cs, s.data = c :: cs := by
      cases hd : s.data with
      | nil => exact absurd (String.ext hd) hne
      | cons c cs => exact ⟨c, cs, rfl⟩
    have hc0 : isSplitChar c = false := hhead c (by simp [hdata])
    have htok : tokenOf s = c :: cs.takeWhile (fun x => !(isSplitChar x)) := by
      unfold tokenOf
      rw [hdata, List.takeWhile_cons, if_pos (by simp [hc0])]
    rcases hbp : rbrpMatch (tokenOf s) with _ | ⟨t, n⟩
    · rcases hww : wwMatch (tokenOf s) with _ | ⟨dc, th⟩
      · simp only [parseFullExp, hbp, hww]
        rw [if_neg hsc]
        split_ifs with h1 h2 h3
        · show ("d%" : String) ≠ ""
          decide
        · show ("d%" : String) ≠ ""
          decide
        · show String.mk (jsTrim ((tokenOf s).drop 1)) ≠ ""
          have htail : (tokenOf s).drop 1 = cs.takeWhile (fun x => !(isSplitChar x)) := by
            rw [htok]
            rfl
          have hnb : ∀ x ∈ (tokenOf s).drop 1, isJsWhitespace x = false := by
            intro x hx
            rw [htail] at hx
            have hsp : isSplitChar x = false := by simpa using List.mem_takeWhile_imp hx
            exact no_split_no_ws hsp
          rw [jsTrim_eq_self hnb]
          intro hmk
          have hdrop : (tokenOf s).drop 1 = [] := congrArg String.data hmk
          have hcr : c = 'r' := by
            rw [htok] at h3
            simpa using h3
          have htokr : tokenOf s = ['r'] := by
            rw [htail] at hdrop
            rw [htok, hcr, hdrop]
          exact h1 (Or.inr (Or.inl ((congrArg String.mk htokr).trans rfl)))
        · show String.mk (tokenOf s) ≠ ""
          intro hmk
          have hdata2 : tokenOf s = [] := congrArg String.data hmk
          rw [htok] at hdata2
          exact List.noConfusion hdata2
      · simp only [parseFullExp, hbp, hww]
        rw [if_neg hsc]
        split_ifs with h1 h2
        · show ("d%" : String) ≠ ""
          decide
        · show ("d%" : String) ≠ ""
          decide
        · exact append_ne_empty_right _ ">=8" (by decide)
    · simp only [parseFullExp, hbp]
      rw [if_neg hsc]
      split_ifs with h1 h2 ht
      · show ("d%" : String) ≠ ""
        decide
      · show ("d%" : String) ≠ ""
        decide
      · exact append_ne_empty_right _ "1" (by decide)
      · exact append_ne_empty_right _ "1" (by decide)
  · intro hall hsc hSC
    have hdesc : descOf s = [] := by
      unfold descOf
      exact List.dropWhile_eq_nil_iff.mpr (fun x hx => by simp [hall x hx])
    have hmkdesc : String.mk (descOf s) = "" := by
      rw [hdesc]
    rcases hbp : rbrpMatch (tokenOf s) with _ | ⟨t, n⟩
    · rcases hww : wwMatch (tokenOf s) with _ | ⟨dc, th⟩
      · simp only [parseFullExp, hbp, hww]
        rw [if_neg (by simp [hsc, hSC])]
        split_ifs <;> exact hmkdesc
      · simp only [parseFullExp, hbp, hww]
        rw [if_neg (by simp [hsc, hSC])]
        split_ifs <;> exact hmkdesc
    · simp only [parseFullExp, hbp]
      rw [if_neg (by simp [hsc, hSC])]
      split_ifs <;> exact hmkdesc

/-- C5 witness: the amended invariant applied at input `xyz`, whose first
character is no split character and which contains no split character. -/
theorem c5_parsed_invariant_amended_witness :
    (parseFullExp "xyz").1 ≠ "" ∧ (parseFullExp "xyz").2 = "" :=
  ⟨(c5_parsed_invariant_amended "xyz").1 (by decide) (by decide),
   (c5_parsed_invariant_amended "xyz").2 (by decide) (by decide) (by decide)⟩

/-! ## C6 -/

/-- C6: every token matching the exploding-pool pattern
`w{1,2}<count>a?<threshold>?` is parsed to the canonical d10-pool expression
`<count>d10!>=<threshold>>=8` (threshold defaulting to 10), with the split
remainder as descriptor. -/
theorem c6_exploding_pool (s : String) (dc : Nat) (th : Option Nat)
    (h : wwMatch (tokenOf s) = some (dc, th)) :
    parseFullExp s =
      (toString dc ++ "d10!>=" ++ toString (th.getD 10) ++ ">=8",
       String.mk (descOf s)) := by
  obtain ⟨rest, htok⟩ := wwMatch_shape h
  have hsc : ¬(s = "sc" ∨ s = "SC") := by
    rintro (rfl | rfl)
    · have h1 : (tokenOf "sc").head? = some 'w' := by rw [htok]; rfl
      exact absurd h1 (by decide)
    · have h1 : (tokenOf "SC").head? = some 'w' := by rw [htok]; rfl
      exact absurd h1 (by decide)
  have hd2 : String.mk (tokenOf s) ≠ "d" := by
    rw [htok]; intro hh
    have h2 : some 'w' = some 'd' := congrArg (fun q => q.data.get? 0) hh
    exact absurd (Option.some.inj h2) (by decide)
  have hr2 : String.mk (tokenOf s) ≠ "r" := by
    rw [htok]; intro hh
    have h2 : some 'w' = some 'r' := congrArg (fun q => q.data.get? 0) hh
    exact absurd (Option.some.inj h2) (by decide)
  have hrd2 : String.mk (tokenOf s) ≠ "rd" := by
    rw [htok]; intro hh
    have h2 : some 'w' = some 'r' := congrArg (fun q => q.data.get? 0) hh
    exact absurd (Option.some.inj h2) (by decide)
  have hra2 : String.mk (tokenOf s) ≠ "ra" := by
    rw [htok]; intro hh
    have h2 : some 'w' = some 'r' := congrArg (fun q => q.data.get? 0) hh
    exact absurd (Option.some.inj h2) (by decide)
  have hbp : rbrpMatch (tokenOf s) = none :=
    rbrpMatch_eq_none_of_head (c := 'w') (by decide) (by rw [htok]; rfl)
  simp only [parseFullExp]
  rw [if_neg hsc, if_neg (by simp [hd2, hr2, hrd2]), if_neg hra2, hbp, h]

/-- C6 witness: the rule applied at `ww4a9 意志` — a pool of 4 d10 dice
rerolling at ≥ 9 and counting successes ≥ 8, with descriptor ` 意志`. -/
theorem c6_exploding_pool_witness :
    parseFullExp "ww4a9 意志" = ("4d10!>=9>=8", " 意志") := by
  rw [c6_exploding_pool "ww4a9 意志" 4 (some 9) (by decide)]
  decide

/-! ## C7 -/

/-- C7 counterexample: the claim asserts the special named checks use the
same threshold rule as ordinary skill checks INCLUDING the critical bands,
but the older `decideResult` on the sanity check (san = 60) yields the plain
comparison `≤ 60 成功` at roll 1 (not 大成功) and `> 60 失败` at roll 100
(not 大失败). -/
theorem c7_counterexample :
    decideResultOld (some sampleCard) "理智" 1 = some ⟨"≤ 60 成功", "理智", "测试"⟩ ∧
    decideResultOld (some sampleCard) "理智" 100 = some ⟨"> 60 失败", "理智", "测试"⟩ ∧
    ("≤ 60 成功" : String) ≠ "大成功" ∧ ("> 60 失败" : String) ≠ "大失败" := by
  decide

/-- C7 (amended): the special named checks — 理智/sc/SC against san, 幸运
against luck, and 灵感 against the 智力 attribute — bypass skill-name lookup
and compare the roll directly against the attribute by the plain
`roll <= value` rule, WITHOUT the critical-success or critical-failure
bands. -/
theorem c7_special_checks_amended (card : ICard) (roll : Nat) :
    decideResultOld (some card) "理智" roll =
      some ⟨compareDesc card.basic.san roll, "理智", card.basic.name⟩ ∧
    decideResultOld (some card) "sc" roll =
      some ⟨compareDesc card.basic.san roll, "sc", card.basic.name⟩ ∧
    decideResultOld (some card) "SC" roll =
      some ⟨compareDesc card.basic.san roll, "SC", card.basic.name⟩ ∧
    decideResultOld (some card) "幸运" roll =
      some ⟨compareDesc card.basic.luck roll, "幸运", card.basic.name⟩ ∧
    decideResultOld (some card) "灵感" roll =
      some ⟨compareDesc (card.props "智力") roll, "灵感", card.basic.name⟩ :=
  ⟨rfl, rfl, rfl, rfl, rfl⟩

/-! ## C8 -/

/-- Inserting an eligible record preserves the opposed-roll cache invariant. -/
theorem cacheSet_inv {cache : List (String × StandardDiceRoll)} {k : String}
    {r : StandardDiceRoll} (hinv : opposedCacheInv cache)
    (hr : r.eligibleForOpposedRoll = true) : opposedCacheInv (cacheSet cache k r) := by
  intro p hp
  rcases List.mem_cons.mp hp with rfl | hp2
  · exact hr
  · exact hinv p (List.mem_of_mem_filter hp2)

/-- C8: the opposed-roll cache only ever stores records flagged
`eligibleForOpposedRoll` — both handler steps preserve the invariant and
write only behind the eligibility/post-success guard — and `tryRollDice`
consults the cache only when a replied-to message id is present (no reply id
means no lookup, and every successful lookup returns an eligible record). -/
theorem c8_opposed_cache (cache : List (String × StandardDiceRoll))
    (o1 o2 : RollOutcome) (cf1 cf2 : Bool) (rm1 rm2 : Option String)
    (hinv : opposedCacheInv cache) :
    opposedCacheInv (guildMessageCacheStep cache o1 cf1 rm1) ∧
    opposedCacheInv (reactionCacheStep cache o2 cf2 rm2) ∧
    opposedRollLookup cache none = none ∧
    (∀ rid r, opposedRollLookup cache (some rid) = some r →
      r.eligibleForOpposedRoll = true) := by
  refine ⟨?_, ?_, rfl, ?_⟩
  · cases o1 with
    | failed => exact hinv
    | nonStandard => exact hinv
    | standard r =>
      cases rm1 with
      | none =>
        simp only [guildMessageCacheStep]
        split_ifs <;> exact hinv
      | some mid =>
        simp only [guildMessageCacheStep]
        split_ifs with h1 h2 h3
        · exact hinv
        · exact hinv
        · exact cacheSet_inv hinv h3
        · exact hinv
  · cases o2 with
    | failed => exact hinv
    | nonStandard => exact hinv
    | standard r =>
      cases rm2 with
      | none =>
        simp only [reactionCacheStep]
        split_ifs <;> exact hinv
      | some mid =>
        simp only [reactionCacheStep]
        split_ifs with h1 h2
        · exact hinv
        · exact cacheSet_inv hinv h2
        · exact hinv
  · intro rid r hlook
    simp only [opposedRollLookup, cacheGet] at hlook
    rcases hfind : cache.find? (fun p => p.1 = rid) with _ | p
    · rw [hfind] at hlook
      exact Option.noConfusion hlook
    · rw [hfind] at hlook
      have hpr : p.2 = r := by simpa using hlook
      rw [← hpr]
      exact hinv p (List.mem_of_find?_eq_some hfind)

/-- C8 witness: the invariant-preservation theorem applied to a concrete
eligible one-entry cache, an eligible non-hidden standard roll outcome in
each handler, and the no-reply lookup. -/
theorem c8_opposed_cache_witness :
    opposedCacheInv (guildMessageCacheStep [("m0", ⟨true, false⟩)]
      (RollOutcome.standard ⟨true, false⟩) true (some "m1")) ∧
    opposedCacheInv (reactionCacheStep [("m0", ⟨true, false⟩)]
      (RollOutcome.standard ⟨true, false⟩) true (some "m2")) ∧
    opposedRollLookup [("m0", ⟨true, false⟩)] none = none :=
  ⟨(c8_opposed_cache [("m0", ⟨true, false⟩)] (RollOutcome.standard ⟨true, false⟩)
      (RollOutcome.standard ⟨true, false⟩) true true (some "m1") (some "m2") (by decide)).1,
   (c8_opposed_cache [("m0", ⟨true, false⟩)] (RollOutcome.standard ⟨true, false⟩)
      (RollOutcome.standard ⟨true, false⟩) true true (some "m1") (some "m2") (by decide)).2.1,
   (c8_opposed_cache [("m0", ⟨true, false⟩)] (RollOutcome.standard ⟨true, false⟩)
      (RollOutcome.standard ⟨true, false⟩) true true (some "m1") (some "m2") (by decide)).2.2.1⟩

/-! ## C10 -/

/-- Scanning for an alternation finds nothing exactly when no alternative
occurs as an infix of the text. -/
theorem firstAltMatch_eq_none_iff (pats : List String) (l : List Char) :
    firstAltMatch pats l = none ↔ ∀ p ∈ pats, ¬ p.data <:+: l := by
  induction l with
  | nil =>
    rw [firstAltMatch, List.find?_eq_none]
    constructor
    · intro h p hp hinf
      exact h p hp (by simp [List.infix_nil.mp hinf])
    · intro h p hp hemp
      exact h p hp (List.infix_nil.mpr (by simpa using hemp))
  | cons c cs ih =>
    rw [firstAltMatch]
    cases hf : List.find? (fun p => p.data.isPrefixOf (c :: cs)) pats with
    | some q =>
      constructor
      · intro h
        exact Option.noConfusion h
      · intro h
        have hq := List.find?_some hf
        exact absurd
          (List.infix_cons_iff.mpr (Or.inl (List.isPrefixOf_iff_prefix.mp hq)))
          (h q (List.mem_of_find?_eq_some hf))
    | none =>
      show firstAltMatch pats cs = none ↔ _
      rw [ih]
      constructor
      · intro h p hp hinf
        rcases List.infix_cons_iff.mp hinf with hpre | hinf2
        · exact (List.find?_eq_none.mp hf p hp) (List.isPrefixOf_iff_prefix.mpr hpre)
        · exact h p hp hinf2
      · intro h p hp hinf
        exact h p hp (List.infix_cons_iff.mpr (Or.inr hinf))

/-- Alternation matches are sound: a found pattern is one of the
alternatives and occurs in the text. -/
theorem firstAltMatch_sound {pats : List String} {l : List Char} {p : String}
    (h : firstAltMatch pats l = some p) : p ∈ pats ∧ p.data <:+: l := by
  induction l with
  | nil =>
    rw [firstAltMatch] at h
    refine ⟨List.mem_of_find?_eq_some h, List.infix_nil.mpr ?_⟩
    simpa using List.find?_some h
  | cons c cs ih =>
    rw [firstAltMatch] at h
    cases hf : List.find? (fun q => q.data.isPrefixOf (c :: cs)) pats with
    | some q =>
      rw [hf] at h
      have hpq : q = p := Option.some.inj h
      have hq := List.find?_some hf
      refine ⟨hpq ▸ List.mem_of_find?_eq_some hf, ?_⟩
      exact hpq ▸ List.infix_cons_iff.mpr
        (Or.inl (List.isPrefixOf_iff_prefix.mp hq))
    | none =>
      rw [hf] at h
      have hih := ih h
      exact ⟨hih.1, List.infix_cons_iff.mpr (Or.inr hih.2)⟩

/-- Decomposition of a successful linear search: the found element
satisfies the predicate, and every element listed before it falsifies it. -/
theorem find?_first_decomp {α : Type} {f : α → Bool} {l : List α} {a : α}
    (h : l.find? f = some a) :
    f a = true ∧ ∃ pre post, l = pre ++ a :: post ∧ ∀ x ∈ pre, f x = false := by
  induction l with
  | nil => simp at h
  | cons b bs ih =>
    cases hfb : f b with
    | true =>
      rw [List.find?_cons_of_pos _ hfb] at h
      have hab : b = a := Option.some.inj h
      subst hab
      exact ⟨hfb, [], bs, rfl, by simp⟩
    | false =>
      rw [List.find?_cons_of_neg _ (by simp [hfb])] at h
      obtain ⟨hf, pre, post, heq, hpre⟩ := ih h
      refine ⟨hf, b :: pre, post, by rw [heq]; rfl, ?_⟩
      intro x hx
      rcases List.mem_cons.mp hx with rfl | hx2
      · exact hfb
      · exact hpre x hx2

/-- Completeness of the alternation scan: the returned pattern is the FIRST
occurrence — it matches at the leftmost matching position, and among the
alternatives matching there it is the first in pattern order. -/
theorem firstAltMatch_first {pats : List String} {l : List Char} {p : String}
    (h : firstAltMatch pats l = some p) : isFirstAltOccurrence pats l p := by
  induction l with
  | nil =>
    rw [firstAltMatch] at h
    obtain ⟨hf, pre, post, heq, hpre⟩ := find?_first_decomp h
    have hpd : p.data = [] := by simpa using hf
    refine ⟨0, pre, post, heq, by simp [hpd], ?_, ?_⟩
    · intro j hj
      exact absurd hj (Nat.not_lt_zero j)
    · intro q hq hqp
      have hqd : q.data = [] := List.prefix_nil.mp (by simpa using hqp)
      have hf2 := hpre q hq
      rw [hqd] at hf2
      simp at hf2
  | cons c cs ih =>
    rw [firstAltMatch] at h
    cases hf : List.find? (fun q => q.data.isPrefixOf (c :: cs)) pats with
    | some q =>
      rw [hf] at h
      have hqp : q = p := Option.some.inj h
      subst hqp
      obtain ⟨hfq, pre, post, heq, hpre⟩ := find?_first_decomp hf
      refine ⟨0, pre, post, heq, ?_, ?_, ?_⟩
      · have hq2 : q.data <+: c :: cs := List.isPrefixOf_iff_prefix.mp (by simpa using hfq)
        simpa using hq2
      · intro j hj
        exact absurd hj (Nat.not_lt_zero j)
      · intro q2 hq2 hq2p
        have hfalse := hpre q2 hq2
        simp only [] at hfalse
        have htrue : q2.data.isPrefixOf (c :: cs) = true :=
          List.isPrefixOf_iff_prefix.mpr (by simpa using hq2p)
        rw [htrue] at hfalse
        exact Bool.noConfusion hfalse
    | none =>
      rw [hf] at h
      obtain ⟨i, pre, post, heq, hprefix, hmin, hord⟩ := ih h
      refine ⟨i + 1, pre, post, heq, ?_, ?_, ?_⟩
      · simpa [List.drop_succ_cons] using hprefix
      · intro j hj q hq
        cases j with
        | zero =>
          intro hqp
          exact (List.find?_eq_none.mp hf q hq)
            (List.isPrefixOf_iff_prefix.mpr (by simpa using hqp))
        | succ j2 =>
          rw [List.drop_succ_cons]
          exact hmin j2 (by omega) q hq
      · intro q hq
        rw [List.drop_succ_cons]
        exact hord q hq

/-- C10: `detectInstruction` returns `none` exactly when no fixed
skill/attribute keyword occurs anywhere in the text; otherwise it returns
`d ++ kw` where `kw` is the FIRST keyword occurrence (leftmost position,
first alternative in pattern order at that position) and `d` is the FIRST
difficulty word occurring anywhere in the text, or the empty string when no
difficulty word occurs at all — each found by an independent whole-text
scan, so the difficulty word need not precede or touch the keyword. -/
theorem c10_detect_instruction (text : String) :
    (detectInstruction text = none ↔ ∀ kw ∈ instKeywords, ¬ kw.data <:+: text.data) ∧
    (∀ s, detectInstruction text = some s →
      ∃ kw d, s = d ++ kw ∧ isFirstAltOccurrence instKeywords text.data kw ∧
        ((d = "" ∧ ∀ q ∈ difficultyWords, ¬ q.data <:+: text.data) ∨
          isFirstAltOccurrence difficultyWords text.data d)) := by
  constructor
  · rw [← firstAltMatch_eq_none_iff]
    unfold detectInstruction
    cases hf : firstAltMatch instKeywords text.data with
    | none => simp
    | some kw => simp
  · intro s hs
    unfold detectInstruction at hs
    cases hf : firstAltMatch instKeywords text.data with
    | none =>
      rw [hf] at hs
      exact Option.noConfusion hs
    | some kw =>
      rw [hf] at hs
      have hkw := firstAltMatch_first hf
      cases hd : firstAltMatch difficultyWords text.data with
      | none =>
        rw [hd] at hs
        exact ⟨kw, "", (Option.some.inj hs).symm, hkw,
          Or.inl ⟨rfl, (firstAltMatch_eq_none_iff _ _).mp hd⟩⟩
      | some d0 =>
        rw [hd] at hs
        exact ⟨kw, d0, (Option.some.inj hs).symm, hkw,
          Or.inr (firstAltMatch_first hd)⟩

/-- C10 witness: the theorem evaluated at concrete texts — on
`侦察真的很困难` the scan returns the first keyword 侦察 prefixed with the
difficulty word 困难 found far away from it, and on the keyword-free text
`咕咕咕` the theorem's characterization forces `none`. -/
theorem c10_detect_instruction_witness :
    detectInstruction "侦察真的很困难" = some "困难侦察" ∧
    detectInstruction "咕咕咕" = none :=
  ⟨by decide, (c10_detect_instruction "咕咕咕").1.mpr (by decide)⟩
